import Mathlib

set_option autoImplicit false

namespace Diskcache

/-- Job status constants, from class `JobStatus` in
src/utilities/diskcache_backend.py (lines 246-265). -/
inductive JobStatus where
  | queued
  | started
  | finished
  | failed
  | deferred
  | scheduled
  | stopped
  | canceled
  deriving DecidableEq, Repr

/-- Terminal statuses, the four listed in `Job.set_status`'s final branch
(and in the spec's state machine). -/
def JobStatus.isTerminal : JobStatus → Bool
  | .finished | .failed | .stopped | .canceled => true
  | _ => false

/-- Model of the stored callable `Job.func`.  A Python callable relevant to
the claims either is not callable at all, returns a value, raises an
exception with a message, or enqueues one further job on the same queue and
then returns a value (the shape needed for the mid-drain-enqueue claims). -/
inductive Target where
  | notCallable : Target
  | ret : Int → Target
  | raiseExc : String → Target
  | enqThenRet : String → Target → List Int → Int → Target
  deriving DecidableEq, Repr

/-- Mirrors Python's `callable(job.func)` test in `Worker.work` (line 174). -/
def Target.callable : Target → Bool
  | .notCallable => false
  | _ => true

/-- The job ids a single invocation of this target enqueues. -/
def Target.enqIds : Target → List String
  | .enqThenRet i _ _ _ => [i]
  | _ => []

/-- Model of class `Job` (lines 269-304).  Fields that no claim touches
(`connection`, `serializer`, `meta`, `description`, `func_name`, `timeout`,
`result_ttl`, `worker_name`, `last_heartbeat`, `created_at`) are omitted;
timestamps are modelled as an abstract monotone counter instead of wall-clock
datetimes.  `excInfo` models `exc_info`, the error-text field. -/
structure Job where
  id : String
  origin : String
  status : JobStatus := .queued
  enqueuedAt : Option Nat := none
  startedAt : Option Nat := none
  endedAt : Option Nat := none
  result : Option Int := none
  excInfo : Option String := none
  func : Target
  args : List Int := []
  kwargs : List (String × Int) := []
  scheduledAt : Option Nat := none
  deriving DecidableEq, Repr

/-- `Job.set_status` (lines 309-318): unconditionally assigns the new status
and stamps the timestamp that corresponds to it.  The Python `persist`
parameter is ignored by the source body and hence not modelled. -/
def Job.set_status (j : Job) (s : JobStatus) (now : Nat) : Job :=
  let j := { j with status := s }
  match s with
  | .queued => { j with enqueuedAt := some now }
  | .started => { j with startedAt := some now }
  | .finished | .failed | .stopped | .canceled => { j with endedAt := some now }
  | _ => j

/-- Association-list lookup, modelling Python dict lookup `self._jobs[i]` /
`i in self._jobs`. -/
def lookupJob : List (String × Job) → String → Option Job
  | [], _ => none
  | (k, v) :: rest, i => if k = i then some v else lookupJob rest i

/-- Association-list store, modelling Python dict assignment
`self._jobs[i] = j`: an existing key keeps its position (Python dicts are
insertion ordered), a new key is appended. -/
def setJob : List (String × Job) → String → Job → List (String × Job)
  | [], i, j => [(i, j)]
  | (k, v) :: rest, i, j => if k = i then (i, j) :: rest else (k, v) :: setJob rest i j

/-- Model of class `Queue`'s state (lines 54-62): `jobsMap` is the
insertion-ordered dict `self._jobs`, `deque` is the durable
`diskcache.Deque` of job ids. -/
structure Queue where
  name : String
  jobsMap : List (String × Job) := []
  deque : List String := []
  deriving DecidableEq, Repr

/-- `Queue.jobs` (lines 64-67): jobs in deque order, skipping ids with no
backing entry in `_jobs`. -/
def Queue.jobs (q : Queue) : List Job :=
  q.deque.filterMap (fun i => lookupJob q.jobsMap i)

/-- `Queue.count` (lines 69-71): `len(self._jobs)`. -/
def Queue.count (q : Queue) : Nat :=
  q.jobsMap.length

/-- `Queue.fetch_job` (lines 98-100): `self._jobs.get(job_id)`. -/
def Queue.fetch_job (q : Queue) (jobId : String) : Option Job :=
  lookupJob q.jobsMap jobId

/-- `Queue.job_ids` (lines 102-105): `list(self._jobs.keys())`. -/
def Queue.job_ids (q : Queue) : List String :=
  q.jobsMap.map Prod.fst

/-- Registry add (`BaseRegistry.add`, lines 403-406): `self._index[job_id] =
True`; a key already present is overwritten in place, a new key appended. -/
def regAdd (l : List String) (i : String) : List String :=
  if i ∈ l then l else l ++ [i]

/-- Registry remove (`BaseRegistry.remove`, lines 408-411): delete the key if
present. -/
def regRemove (l : List String) (i : String) : List String :=
  l.filter (fun k => k ≠ i)

/-- One queue together with its six lifecycle registries (the
`BaseRegistry` subclasses keyed by this queue's name) and the time counter.
All claims concern a single queue, so the process state is scoped to one. -/
structure QState where
  queue : Queue
  startedReg : List String := []
  failedReg : List String := []
  finishedReg : List String := []
  deferredReg : List String := []
  scheduledReg : List String := []
  canceledReg : List String := []
  clock : Nat := 0
  deriving DecidableEq, Repr

/-- `Queue.enqueue` (lines 74-88): build the Job, set its initial status
(DEFERRED when `depends_on` was supplied, else QUEUED), store it in `_jobs`
and append its id to `_deque`.  Returns the new state and the Job, which in
Python is the same object as the stored one. -/
def QState.enqueue (st : QState) (jobId : String) (func : Target)
    (args : List Int) (kwargs : List (String × Int)) (dependsOn : Bool) :
    QState × Job :=
  let job : Job :=
    { id := jobId, origin := st.queue.name, func := func, args := args, kwargs := kwargs }
  let job := job.set_status (if dependsOn then .deferred else .queued) st.clock
  let q := { st.queue with
    jobsMap := setJob st.queue.jobsMap job.id job,
    deque := st.queue.deque ++ [job.id] }
  ({ st with queue := q, clock := st.clock + 1 }, job)

/-- `Queue.enqueue_at` (lines 90-96): plain `enqueue`, then set the job's
`scheduled_at` (a mutation visible through `_jobs`, since Python stores the
same object) and add the id to the Scheduled Registry.  The status is
whatever `enqueue` assigned; `enqueue_at` never changes it. -/
def QState.enqueue_at (st : QState) (scheduleAt : Nat) (jobId : String)
    (func : Target) (args : List Int) (kwargs : List (String × Int))
    (dependsOn : Bool) : QState × Job :=
  let (st, job) := st.enqueue jobId func args kwargs dependsOn
  let job := { job with scheduledAt := some scheduleAt }
  let q := { st.queue with jobsMap := setJob st.queue.jobsMap job.id job }
  ({ st with queue := q, scheduledReg := regAdd st.scheduledReg job.id }, job)

/-- State-changing calls a drain pass makes, recorded as a trace so that
ordering claims (STARTED-before-invocation, registry pairing, snapshot
isolation) are statable.  `execJob` marks the invocation of a job's stored
target, `enqEv` an enqueue performed from inside a target. -/
inductive Event where
  | execJob : String → Event
  | setStatusEv : String → JobStatus → Event
  | regAddEv : String → Event
  | regRemoveEv : String → Event
  | enqEv : String → Event
  deriving DecidableEq, Repr

/-- Invocation of a stored target: the state it may mutate (by enqueuing),
the normal return value or the raised exception's text, and the enqueue
events it performs.  `notCallable` is never invoked by `Worker.work` (the
`callable` guard); its branch here is unreachable from `work`. -/
def invokeTarget (st : QState) (t : Target) : QState × Except String Int × List Event :=
  match t with
  | .notCallable => (st, .ok 0, [])
  | .ret v => (st, .ok v, [])
  | .raiseExc msg => (st, .error msg, [])
  | .enqThenRet i f a v =>
      let st := (st.enqueue i f a [] false).1
      (st, .ok v, [.enqEv i])

/-- Body of the per-job loop in `Worker.work` (lines 171-181): inside the
`try`, invoke the target when callable and store its result, then set
FINISHED; on a raised exception store `str(e)` into `exc_info` and set
FAILED.  The mutated Job is written back into the queue's `_jobs` at its id
(in Python the snapshot entry and the dict entry are one object). -/
def workBody (st : QState) (j : Job) : QState × List Event :=
  if j.func.callable then
    match invokeTarget st j.func with
    | (st1, .ok v, evs) =>
        let j1 := ({ j with result := some v }).set_status .finished st1.clock
        ({ st1 with
            queue := { st1.queue with jobsMap := setJob st1.queue.jobsMap j1.id j1 },
            clock := st1.clock + 1 },
          .execJob j.id :: evs ++ [.setStatusEv j1.id .finished])
    | (st1, .error msg, evs) =>
        let j1 := ({ j with excInfo := some msg }).set_status .failed st1.clock
        ({ st1 with
            queue := { st1.queue with jobsMap := setJob st1.queue.jobsMap j1.id j1 },
            clock := st1.clock + 1 },
          .execJob j.id :: evs ++ [.setStatusEv j1.id .failed])
  else
    let j1 := j.set_status .finished st.clock
    ({ st with
        queue := { st.queue with jobsMap := setJob st.queue.jobsMap j1.id j1 },
        clock := st.clock + 1 },
      [.setStatusEv j1.id .finished])

/-- One fold step of the drain loop, accumulating the event trace. -/
def workStep (acc : QState × List Event) (j : Job) : QState × List Event :=
  let (st, evs) := workBody acc.1 j
  (st, acc.2 ++ evs)

/-- `Worker.work` (lines 162-183) with its event trace: a no-op unless
`burst`; in burst mode, fold the loop body over `list(queue.jobs)`, the
snapshot of the queue's jobs taken at loop entry. -/
def Worker.workT (st : QState) (burst : Bool) : QState × List Event :=
  if burst then (st.queue.jobs).foldl workStep (st, []) else (st, [])

/-- `Worker.work`: the resulting state of the traced drain. -/
def Worker.work (st : QState) (burst : Bool) : QState :=
  (Worker.workT st burst).1

/-- `Worker.prepare_job_execution` (lines 188-191): set STARTED and add the
id to the Started Registry.  Present in the source but never called by
`Worker.work`. -/
def Worker.prepare_job_execution (st : QState) (j : Job) : QState × List Event :=
  let j1 := j.set_status .started st.clock
  ({ st with
      queue := { st.queue with jobsMap := setJob st.queue.jobsMap j1.id j1 },
      startedReg := regAdd st.startedReg j1.id,
      clock := st.clock + 1 },
    [.setStatusEv j1.id .started, .regAddEv j1.id])

/-- Per-queue statistics record, the dict returned by
`_get_queue_statistics` (lines 463-485). -/
structure QueueStats where
  name : String
  jobs : Nat
  index : Nat
  workers : Nat
  finished_jobs : Nat
  failed_jobs : Nat
  started_jobs : Nat
  deferred_jobs : Nat
  scheduled_jobs : Nat
  canceled_jobs : Nat
  deriving DecidableEq, Repr

/-- `_get_queue_statistics`: queue job count plus the six registry
cardinalities; the per-queue `workers` entry is the literal 0. -/
def get_queue_statistics (st : QState) (queueIndex : Nat) : QueueStats :=
  { name := st.queue.name
    jobs := st.queue.count
    index := queueIndex
    workers := 0
    finished_jobs := st.finishedReg.length
    failed_jobs := st.failedReg.length
    started_jobs := st.startedReg.length
    deferred_jobs := st.deferredReg.length
    scheduled_jobs := st.scheduledReg.length
    canceled_jobs := st.canceledReg.length }

/-- Top-level statistics record returned by `get_statistics` in
src/netbox/django_rq/utils.py (lines 6-25), restricted to the one modelled
queue. -/
structure Statistics where
  workers : Nat
  jobs : Nat
  queues : List QueueStats
  deriving DecidableEq, Repr

/-- `get_statistics`: the façade's `workers` field is the literal 1; the
`numWorkers` argument models the size of the process-wide `_WORKERS`
directory, which the source never consults here. -/
def get_statistics (st : QState) (queueIndex : Nat) (numWorkers : Nat) : Statistics :=
  let qs := get_queue_statistics st queueIndex
  let _ := numWorkers
  { workers := 1, jobs := qs.jobs, queues := [qs] }

/-- Status a drained job ends in, read off the per-job loop body of
`Worker.work`: FAILED exactly when the target raises, FINISHED otherwise
(including the non-callable case, which skips the invocation but still
reaches the FINISHED line). -/
def Job.drainStatus (j : Job) : JobStatus :=
  match j.func with
  | .raiseExc _ => .failed
  | _ => .finished

/-- Result a drained job ends with: the returned value on a normal return,
the previous `result` otherwise (the assignment is skipped when the target
is not callable, and never reached when it raises). -/
def Job.drainResult (j : Job) : Option Int :=
  match j.func with
  | .ret v => some v
  | .enqThenRet _ _ _ v => some v
  | _ => j.result

/-- Error text a drained job ends with: `str(e)` when the target raises,
the previous `exc_info` otherwise. -/
def Job.drainExc (j : Job) : Option String :=
  match j.func with
  | .raiseExc m => some m
  | _ => j.excInfo

/-- Events one loop-body iteration emits; they depend only on the job
value, not on the surrounding state. -/
def bodyEvents (j : Job) : List Event :=
  match j.func with
  | .notCallable => [.setStatusEv j.id .finished]
  | .ret _ => [.execJob j.id, .setStatusEv j.id .finished]
  | .raiseExc _ => [.execJob j.id, .setStatusEv j.id .failed]
  | .enqThenRet i _ _ _ => [.execJob j.id, .enqEv i, .setStatusEv j.id .finished]

/-- Concatenated event traces of a list of loop-body iterations. -/
def joinedEvents : List Job → List Event
  | [] => []
  | j :: rest => bodyEvents j ++ joinedEvents rest

/-- Registry operations among the drain events. -/
def Event.isRegOp : Event → Bool
  | .regAddEv _ => true
  | .regRemoveEv _ => true
  | _ => false

/-- Transitions to STARTED among the drain events. -/
def Event.isStartedSet : Event → Bool
  | .setStatusEv _ .started => true
  | _ => false

/-- Invocation events of the job with the given id. -/
def Event.isExecOf (i : String) : Event → Bool
  | .execJob k => k == i
  | _ => false

/-- How many times the trace invokes the target of the job with this id. -/
def execCount (evs : List Event) (i : String) : Nat :=
  evs.countP (Event.isExecOf i)

/-- Well-formedness of a state: every entry of the id-to-Job mapping is
keyed by its job's own id, as every write performed by the source
maintains. -/
def QState.WF (st : QState) : Prop :=
  ∀ p ∈ st.queue.jobsMap, (p : String × Job).2.id = p.1

/-- A fresh process state holding one empty queue of the given name. -/
def emptyState (n : String) : QState :=
  { queue := { name := n } }

/-- Scenario for the drain-correctness claim: three jobs whose targets
return 1, raise, and return 3. -/
def stC1base : QState :=
  ((((emptyState "default").enqueue "j1" (.ret 1) [] [] false).1.enqueue
      "j2" (.raiseExc "boom") [] [] false).1.enqueue "j3" (.ret 3) [] [] false).1

/-- Scenario with a single job whose target returns 1. -/
def stC2base : QState :=
  ((emptyState "default").enqueue "a" (.ret 1) [] [] false).1

/-- A time-scheduled enqueue on a fresh queue. -/
def enqAtC3 : QState × Job :=
  (emptyState "default").enqueue_at 5 "s1" (.ret 0) [] [] false

/-- A job already in a terminal status. -/
def jobC4 : Job :=
  { id := "x", origin := "default", status := .finished, endedAt := some 0, func := .ret 0 }

/-- Scenario with a single succeeding job, for the statistics claim. -/
def stC5base : QState :=
  ((emptyState "default").enqueue "k1" (.ret 7) [] [] false).1

/-- Scenario with a single job whose stored target is not callable. -/
def stC6base : QState :=
  ((emptyState "default").enqueue "n1" .notCallable [] [] false).1

/-- The job stored by the scenario above. -/
def jobC6 : Job :=
  ((emptyState "default").enqueue "n1" .notCallable [] [] false).2

/-- Scenario with a raising job followed by a succeeding one. -/
def stC7base : QState :=
  (((emptyState "default").enqueue "r1" (.raiseExc "bad") [] [] false).1.enqueue
    "r2" (.ret 2) [] [] false).1

/-- The raising job stored by the scenario above. -/
def jobC7 : Job :=
  ((emptyState "default").enqueue "r1" (.raiseExc "bad") [] [] false).2

/-- Scenario where the first job's target enqueues a new job mid-drain. -/
def stC8base : QState :=
  (((emptyState "default").enqueue "a8" (.enqThenRet "d8" (.ret 9) [] 4)
      [] [] false).1.enqueue "b8" (.ret 5) [] [] false).1

/-- The mid-drain-enqueuing job stored by the scenario above. -/
def jobC8 : Job :=
  ((emptyState "default").enqueue "a8" (.enqThenRet "d8" (.ret 9) [] 4) [] [] false).2

/-- Scenario with one succeeding and one failing job, for the frame claim. -/
def stC10base : QState :=
  (((emptyState "default").enqueue "w1" (.ret 1) [] [] false).1.enqueue
    "w2" (.raiseExc "e") [] [] false).1

@[simp]
theorem set_status_queued (j : Job) (n : Nat) :
    j.set_status .queued n = { j with status := .queued, enqueuedAt := some n } := rfl

@[simp]
theorem set_status_started (j : Job) (n : Nat) :
    j.set_status .started n = { j with status := .started, startedAt := some n } := rfl

@[simp]
theorem set_status_finished (j : Job) (n : Nat) :
    j.set_status .finished n = { j with status := .finished, endedAt := some n } := rfl

@[simp]
theorem set_status_failed (j : Job) (n : Nat) :
    j.set_status .failed n = { j with status := .failed, endedAt := some n } := rfl

@[simp]
theorem set_status_stopped (j : Job) (n : Nat) :
    j.set_status .stopped n = { j with status := .stopped, endedAt := some n } := rfl

@[simp]
theorem set_status_canceled (j : Job) (n : Nat) :
    j.set_status .canceled n = { j with status := .canceled, endedAt := some n } := rfl

@[simp]
theorem set_status_deferred (j : Job) (n : Nat) :
    j.set_status .deferred n = { j with status := .deferred } := rfl

@[simp]
theorem set_status_scheduled (j : Job) (n : Nat) :
    j.set_status .scheduled n = { j with status := .scheduled } := rfl

/-- The status after `set_status` is always the requested one. -/
theorem set_status_status (j : Job) (s : JobStatus) (n : Nat) :
    (j.set_status s n).status = s := by
  cases s <;> rfl

/-- `set_status` never touches result or error text. -/
theorem set_status_result_excInfo (j : Job) (s : JobStatus) (n : Nat) :
    (j.set_status s n).result = j.result ∧ (j.set_status s n).excInfo = j.excInfo := by
  cases s <;> exact ⟨rfl, rfl⟩

@[simp]
theorem lookupJob_setJob_self (m : List (String × Job)) (i : String) (v : Job) :
    lookupJob (setJob m i v) i = some v := by
  induction m with
  | nil => simp [setJob, lookupJob]
  | cons p rest ih =>
      by_cases h : p.1 = i <;> simp [setJob, lookupJob, h, ih]

theorem lookupJob_setJob_ne (m : List (String × Job)) (i k : String) (v : Job)
    (h : i ≠ k) : lookupJob (setJob m k v) i = lookupJob m i := by
  induction m with
  | nil => simp [setJob, lookupJob, Ne.symm h]
  | cons p rest ih =>
      by_cases hp : p.1 = k
      · simp [setJob, lookupJob, hp, Ne.symm h]
      · by_cases hi : p.1 = i <;> simp [setJob, lookupJob, hp, hi, ih, h]

theorem setJob_keys_of_mem (m : List (String × Job)) (i : String) (v : Job)
    (h : i ∈ m.map Prod.fst) :
    (setJob m i v).map Prod.fst = m.map Prod.fst := by
  induction m with
  | nil => simp at h
  | cons p rest ih =>
      by_cases hp : p.1 = i
      · simp [setJob, hp]
      · simp only [List.map_cons, List.mem_cons] at h
        rcases h with h | h
        · exact absurd h.symm hp
        · simp [setJob, hp, ih h]

theorem mem_keys_of_lookupJob (m : List (String × Job)) (i : String) (v : Job)
    (h : lookupJob m i = some v) : i ∈ m.map Prod.fst := by
  induction m with
  | nil => simp [lookupJob] at h
  | cons p rest ih =>
      by_cases hp : p.1 = i
      · simp [hp]
      · simp only [lookupJob, hp, if_false] at h
        simp [ih h]

theorem lookupJob_isSome_of_mem_keys (m : List (String × Job)) (i : String)
    (h : i ∈ m.map Prod.fst) : (lookupJob m i).isSome := by
  induction m with
  | nil => simp at h
  | cons p rest ih =>
      by_cases hp : p.1 = i
      · simp [lookupJob, hp]
      · simp only [List.map_cons, List.mem_cons] at h
        rcases h with h | h
        · exact absurd h.symm hp
        · simp [lookupJob, hp, ih h]

theorem lookupJob_mem (m : List (String × Job)) (i : String) (v : Job)
    (h : lookupJob m i = some v) : (i, v) ∈ m := by
  induction m with
  | nil => simp [lookupJob] at h
  | cons p rest ih =>
      obtain ⟨a, b⟩ := p
      by_cases hp : a = i
      · subst hp
        simp [lookupJob] at h
        subst h
        exact List.mem_cons_self _ _
      · simp only [lookupJob, hp, if_false] at h
        exact List.mem_cons_of_mem _ (ih h)

theorem mem_regAdd_self (l : List String) (i : String) : i ∈ regAdd l i := by
  by_cases h : i ∈ l <;> simp [regAdd, h]

@[simp]
theorem workStep_def (acc : QState × List Event) (j : Job) :
    workStep acc j = ((workBody acc.1 j).1, acc.2 ++ (workBody acc.1 j).2) := rfl

/-- The events one loop-body iteration emits depend only on the job value. -/
theorem workBody_events (st : QState) (j : Job) :
    (workBody st j).2 = bodyEvents j := by
  cases hf : j.func <;>
    simp [workBody, invokeTarget, Target.callable, bodyEvents, hf]

/-- One loop-body iteration never touches any registry and keeps the queue
name. -/
theorem workBody_frame (st : QState) (j : Job) :
    (workBody st j).1.startedReg = st.startedReg ∧
    (workBody st j).1.failedReg = st.failedReg ∧
    (workBody st j).1.finishedReg = st.finishedReg ∧
    (workBody st j).1.deferredReg = st.deferredReg ∧
    (workBody st j).1.scheduledReg = st.scheduledReg ∧
    (workBody st j).1.canceledReg = st.canceledReg ∧
    (workBody st j).1.queue.name = st.queue.name := by
  cases hf : j.func <;>
    simp [workBody, invokeTarget, QState.enqueue, Target.callable, hf]

/-- One loop-body iteration appends to the durable ordering exactly the ids
its target enqueues (and removes nothing). -/
theorem workBody_deque (st : QState) (j : Job) :
    (workBody st j).1.queue.deque = st.queue.deque ++ j.func.enqIds := by
  cases hf : j.func <;>
    simp [workBody, invokeTarget, QState.enqueue, Target.callable, Target.enqIds, hf]

/-- One loop-body iteration leaves the mapping unchanged at every id other
than the processed job's own id and the ids its target enqueues. -/
theorem workBody_lookup_frame (st : QState) (j : Job) (i : String)
    (h1 : i ≠ j.id) (h2 : i ∉ j.func.enqIds) :
    lookupJob (workBody st j).1.queue.jobsMap i = lookupJob st.queue.jobsMap i := by
  cases hf : j.func <;>
    simp_all [workBody, invokeTarget, QState.enqueue, Target.callable, Target.enqIds,
      lookupJob_setJob_ne, hf]

/-- What one loop-body iteration stores at the processed job's id: status,
result and error text as the drain outcome dictates; identity, payload and
`started_at` untouched. -/
theorem workBody_fetch (st : QState) (j : Job) :
    ((workBody st j).1.queue.fetch_job j.id).map Job.status = some j.drainStatus ∧
    ((workBody st j).1.queue.fetch_job j.id).map Job.result = some j.drainResult ∧
    ((workBody st j).1.queue.fetch_job j.id).map Job.excInfo = some j.drainExc ∧
    ((workBody st j).1.queue.fetch_job j.id).map Job.id = some j.id ∧
    ((workBody st j).1.queue.fetch_job j.id).map Job.origin = some j.origin ∧
    ((workBody st j).1.queue.fetch_job j.id).map Job.args = some j.args ∧
    ((workBody st j).1.queue.fetch_job j.id).map Job.kwargs = some j.kwargs ∧
    ((workBody st j).1.queue.fetch_job j.id).map Job.startedAt = some j.startedAt := by
  cases hf : j.func <;>
    simp [workBody, invokeTarget, QState.enqueue, Queue.fetch_job, Target.callable,
      Job.drainStatus, Job.drainResult, Job.drainExc, hf]

/-- The drain fold's trace is the concatenation of the per-job traces. -/
theorem foldl_workStep_events (l : List Job) (acc : QState × List Event) :
    (l.foldl workStep acc).2 = acc.2 ++ joinedEvents l := by
  induction l generalizing acc with
  | nil => simp [joinedEvents]
  | cons j rest ih =>
      simp only [List.foldl_cons, workStep_def, joinedEvents]
      rw [ih]
      simp [workBody_events]

/-- The drain fold touches no registry and keeps the queue name. -/
theorem foldl_workStep_frame (l : List Job) (acc : QState × List Event) :
    (l.foldl workStep acc).1.startedReg = acc.1.startedReg ∧
    (l.foldl workStep acc).1.failedReg = acc.1.failedReg ∧
    (l.foldl workStep acc).1.finishedReg = acc.1.finishedReg ∧
    (l.foldl workStep acc).1.deferredReg = acc.1.deferredReg ∧
    (l.foldl workStep acc).1.scheduledReg = acc.1.scheduledReg ∧
    (l.foldl workStep acc).1.canceledReg = acc.1.canceledReg ∧
    (l.foldl workStep acc).1.queue.name = acc.1.queue.name := by
  induction l generalizing acc with
  | nil => exact ⟨rfl, rfl, rfl, rfl, rfl, rfl, rfl⟩
  | cons j rest ih =>
      obtain ⟨h1, h2, h3, h4, h5, h6, h7⟩ :=
        ih (((workBody acc.1 j).1, acc.2 ++ (workBody acc.1 j).2))
      obtain ⟨g1, g2, g3, g4, g5, g6, g7⟩ := workBody_frame acc.1 j
      simp only [List.foldl_cons, workStep_def]
      exact ⟨h1.trans g1, h2.trans g2, h3.trans g3, h4.trans g4,
        h5.trans g5, h6.trans g6, h7.trans g7⟩

/-- The drain fold leaves the mapping unchanged at any id no processed job
owns or enqueues. -/
theorem foldl_workStep_lookup_frame (l : List Job) (acc : QState × List Event)
    (i : String) (h : ∀ k ∈ l, i ≠ k.id ∧ i ∉ k.func.enqIds) :
    lookupJob (l.foldl workStep acc).1.queue.jobsMap i =
      lookupJob acc.1.queue.jobsMap i := by
  induction l generalizing acc with
  | nil => rfl
  | cons k rest ih =>
      obtain ⟨hk1, hk2⟩ := h k (List.mem_cons_self _ _)
      simp only [List.foldl_cons, workStep_def]
      rw [ih _ (fun k' hk' => h k' (List.mem_cons_of_mem _ hk'))]
      exact workBody_lookup_frame acc.1 k i hk1 hk2

/-- After the drain fold, each processed job's entry carries the drain
outcome, provided the snapshot's ids are distinct and no target enqueues an
id colliding with a snapshot id (always true in the source, where fresh ids
are drawn from `uuid4`). -/
theorem foldl_workStep_fetch (l : List Job) (acc : QState × List Event) (j : Job)
    (hmem : j ∈ l) (hnd : (l.map Job.id).Nodup)
    (hfresh : ∀ k ∈ l, ∀ i ∈ k.func.enqIds, i ∉ l.map Job.id) :
    (((l.foldl workStep acc).1.queue.fetch_job j.id).map Job.status = some j.drainStatus) ∧
    (((l.foldl workStep acc).1.queue.fetch_job j.id).map Job.result = some j.drainResult) ∧
    (((l.foldl workStep acc).1.queue.fetch_job j.id).map Job.excInfo = some j.drainExc) ∧
    (((l.foldl workStep acc).1.queue.fetch_job j.id).map Job.id = some j.id) ∧
    (((l.foldl workStep acc).1.queue.fetch_job j.id).map Job.origin = some j.origin) ∧
    (((l.foldl workStep acc).1.queue.fetch_job j.id).map Job.args = some j.args) ∧
    (((l.foldl workStep acc).1.queue.fetch_job j.id).map Job.kwargs = some j.kwargs) ∧
    (((l.foldl workStep acc).1.queue.fetch_job j.id).map Job.startedAt = some j.startedAt) := by
  induction l generalizing acc with
  | nil => simp at hmem
  | cons k rest ih =>
      simp only [List.map_cons, List.nodup_cons] at hnd
      rcases List.mem_cons.mp hmem with rfl | hj
      · have hframe : ∀ k' ∈ rest, j.id ≠ k'.id ∧ j.id ∉ k'.func.enqIds := by
          intro k' hk'
          constructor
          · intro he
            exact hnd.1 (he ▸ List.mem_map_of_mem Job.id hk')
          · intro he
            exact hfresh k' (List.mem_cons_of_mem _ hk') j.id he
              (by simp)
        have hpres := foldl_workStep_lookup_frame rest (workStep acc j) j.id hframe
        simp only [List.foldl_cons, Queue.fetch_job, workStep_def] at hpres ⊢
        rw [hpres]
        exact workBody_fetch acc.1 j
      · refine ih (workStep acc k) hj hnd.2 ?_
        intro k' hk' i hi hmap
        exact hfresh k' (List.mem_cons_of_mem _ hk') i hi
          (List.mem_cons_of_mem _ hmap)

/-- After the drain fold, a job enqueued from inside a snapshot job's
target is stored untouched: freshly QUEUED, no result, no error, its stored
target and arguments intact. -/
theorem foldl_workStep_enqueued (l : List Job) (acc : QState × List Event)
    (j : Job) (d : String) (dt : Target) (da : List Int) (v : Int)
    (hmem : j ∈ l) (hnd : (l.map Job.id).Nodup)
    (hf : j.func = .enqThenRet d dt da v) (hd1 : d ∉ l.map Job.id)
    (hd2 : ∀ k ∈ l, d ∈ k.func.enqIds → k = j) :
    (((l.foldl workStep acc).1.queue.fetch_job d).map Job.status = some .queued) ∧
    (((l.foldl workStep acc).1.queue.fetch_job d).map Job.result = some none) ∧
    (((l.foldl workStep acc).1.queue.fetch_job d).map Job.excInfo = some none) ∧
    (((l.foldl workStep acc).1.queue.fetch_job d).map Job.func = some dt) ∧
    (((l.foldl workStep acc).1.queue.fetch_job d).map Job.args = some da) ∧
    (((l.foldl workStep acc).1.queue.fetch_job d).map Job.id = some d) := by
  induction l generalizing acc with
  | nil => simp at hmem
  | cons k rest ih =>
      simp only [List.map_cons, List.nodup_cons] at hnd
      simp only [List.map_cons, List.mem_cons] at hd1
      push_neg at hd1
      rcases List.mem_cons.mp hmem with rfl | hj
      · have hframe : ∀ k' ∈ rest, d ≠ k'.id ∧ d ∉ k'.func.enqIds := by
          intro k' hk'
          refine ⟨fun he => hd1.2 (he ▸ List.mem_map_of_mem Job.id hk'), fun he => ?_⟩
          have hkj : k' = j := hd2 k' (List.mem_cons_of_mem _ hk') he
          exact hnd.1 (hkj ▸ List.mem_map_of_mem Job.id hk')
        have hpres := foldl_workStep_lookup_frame rest (workStep acc j) d hframe
        simp only [List.foldl_cons, Queue.fetch_job, workStep_def] at hpres ⊢
        rw [hpres]
        have hdj : d ≠ j.id := hd1.1
        simp [workBody, invokeTarget, QState.enqueue, Target.callable, hf,
          lookupJob_setJob_ne _ _ _ _ hdj]
      · refine ih (workStep acc k) hj hnd.2 hd1.2 ?_
        intro k' hk' hi
        exact hd2 k' (List.mem_cons_of_mem _ hk') hi

/-- No per-job trace contains a registry operation or a STARTED
transition. -/
theorem bodyEvents_pred (j : Job) :
    ∀ e ∈ bodyEvents j, e.isRegOp = false ∧ e.isStartedSet = false := by
  cases hf : j.func <;>
    simp [bodyEvents, hf, Event.isRegOp, Event.isStartedSet]

/-- No drain trace contains a registry operation or a STARTED transition. -/
theorem joinedEvents_pred (l : List Job) :
    ∀ e ∈ joinedEvents l, e.isRegOp = false ∧ e.isStartedSet = false := by
  induction l with
  | nil => simp [joinedEvents]
  | cons j rest ih =>
      intro e he
      rcases List.mem_append.mp he with he | he
      · exact bodyEvents_pred j e he
      · exact ih e he

/-- Exact count of invocation events in one per-job trace. -/
theorem execCount_bodyEvents (j : Job) (i : String) :
    execCount (bodyEvents j) i =
      if j.id = i then (if j.func.callable then 1 else 0) else 0 := by
  by_cases hid : j.id = i <;>
    cases hf : j.func <;>
      simp [execCount, bodyEvents, Event.isExecOf, Target.callable, hf, hid,
        List.countP_cons]

@[simp]
theorem execCount_append (a b : List Event) (i : String) :
    execCount (a ++ b) i = execCount a i + execCount b i := by
  simp [execCount, List.countP_append]

/-- A drain trace never invokes a job whose id is only carried by
non-callable snapshot entries (in particular, an id outside the snapshot is
never invoked). -/
theorem execCount_joined_zero (l : List Job) (i : String)
    (h : ∀ k ∈ l, k.id = i → k.func.callable = false) :
    execCount (joinedEvents l) i = 0 := by
  induction l with
  | nil => simp [joinedEvents, execCount]
  | cons j rest ih =>
      have hj := execCount_bodyEvents j i
      simp only [joinedEvents, execCount_append]
      rw [ih (fun k hk => h k (List.mem_cons_of_mem _ hk)), hj]
      by_cases hid : j.id = i
      · simp [hid, h j (List.mem_cons_self _ _) hid]
      · simp [hid]

/-- With distinct snapshot ids, no snapshot job's target is invoked more
than once in one drain trace. -/
theorem execCount_joined_le_one (l : List Job) (hnd : (l.map Job.id).Nodup)
    (k : Job) (hk : k ∈ l) : execCount (joinedEvents l) k.id ≤ 1 := by
  induction l with
  | nil => simp at hk
  | cons j rest ih =>
      simp only [List.map_cons, List.nodup_cons] at hnd
      simp only [joinedEvents, execCount_append]
      rcases List.mem_cons.mp hk with rfl | hk'
      · have hz : execCount (joinedEvents rest) k.id = 0 := by
          refine execCount_joined_zero rest k.id ?_
          intro k' hk' he
          exact absurd (he ▸ List.mem_map_of_mem Job.id hk') hnd.1
        rw [hz, execCount_bodyEvents]
        by_cases hc : k.func.callable <;> simp [hc]
      · have hz : execCount (bodyEvents j) k.id = 0 := by
          rw [execCount_bodyEvents]
          have : j.id ≠ k.id := by
            intro he
            exact hnd.1 (he ▸ List.mem_map_of_mem Job.id hk')
          simp [this]
        rw [hz]
        simpa using ih hnd.2 hk'

/-- Storing a job keyed by its own id preserves the mapping's
well-formedness. -/
theorem setJob_wf (m : List (String × Job)) (i : String) (v : Job)
    (hw : ∀ p ∈ m, (p : String × Job).2.id = p.1) (hv : v.id = i) :
    ∀ p ∈ setJob m i v, (p : String × Job).2.id = p.1 := by
  induction m with
  | nil => simpa [setJob] using hv
  | cons p rest ih =>
      by_cases hp : p.1 = i
      · intro q hq
        simp only [setJob, hp, if_pos] at hq
        rcases List.mem_cons.mp hq with rfl | hq
        · exact hv
        · exact hw q (List.mem_cons_of_mem _ hq)
      · intro q hq
        simp only [setJob, hp, if_false] at hq
        rcases List.mem_cons.mp hq with rfl | hq
        · exact hw _ (List.mem_cons_self _ _)
        · exact ih (fun r hr => hw r (List.mem_cons_of_mem _ hr)) q hq

/-- One loop-body iteration preserves well-formedness of the mapping. -/
theorem workBody_wf (st : QState) (j : Job) (hw : st.WF) : (workBody st j).1.WF := by
  cases hf : j.func <;>
    simp only [QState.WF, workBody, invokeTarget, QState.enqueue, Target.callable, hf] <;>
    simp only [set_status_finished, set_status_failed, set_status_queued] <;>
    first
      | exact setJob_wf _ _ _ hw rfl
      | exact setJob_wf _ _ _ (setJob_wf _ _ _ hw rfl) rfl

/-- The drain fold preserves well-formedness of the mapping. -/
theorem foldl_workStep_wf (l : List Job) (acc : QState × List Event)
    (hw : acc.1.WF) : (l.foldl workStep acc).1.WF := by
  induction l generalizing acc with
  | nil => exact hw
  | cons j rest ih =>
      simp only [List.foldl_cons, workStep_def]
      exact ih _ (workBody_wf acc.1 j hw)

/-- One loop-body iteration whose job already has an entry and whose target
enqueues nothing keeps the mapping's key list unchanged. -/
theorem workBody_keys (st : QState) (j : Job)
    (hk : j.id ∈ st.queue.jobsMap.map Prod.fst) (hne : j.func.enqIds = []) :
    (workBody st j).1.queue.jobsMap.map Prod.fst =
      st.queue.jobsMap.map Prod.fst := by
  have h2 : ∀ v0 : Job, (setJob st.queue.jobsMap j.id v0).map Prod.fst
      = st.queue.jobsMap.map Prod.fst := fun v0 => setJob_keys_of_mem _ _ _ hk
  cases hf : j.func with
  | enqThenRet i f a v =>
      rw [hf] at hne
      simp [Target.enqIds] at hne
  | notCallable => simp [workBody, invokeTarget, Target.callable, hf, h2]
  | ret v => simp [workBody, invokeTarget, Target.callable, hf, h2]
  | raiseExc m => simp [workBody, invokeTarget, Target.callable, hf, h2]

/-- The drain fold keeps the mapping's key list unchanged when every
snapshot job has an entry and no target enqueues. -/
theorem foldl_workStep_keys (l : List Job) (acc : QState × List Event)
    (h : ∀ k ∈ l, k.id ∈ acc.1.queue.jobsMap.map Prod.fst ∧ k.func.enqIds = []) :
    (l.foldl workStep acc).1.queue.jobsMap.map Prod.fst =
      acc.1.queue.jobsMap.map Prod.fst := by
  induction l generalizing acc with
  | nil => rfl
  | cons j rest ih =>
      obtain ⟨hj1, hj2⟩ := h j (List.mem_cons_self _ _)
      have hstep := workBody_keys acc.1 j hj1 hj2
      simp only [List.foldl_cons, workStep_def]
      rw [ih _ ?_, hstep]
      intro k hk
      obtain ⟨h1, h2⟩ := h k (List.mem_cons_of_mem _ hk)
      exact ⟨hstep ▸ h1, h2⟩

/-- Two well-formed mappings with the same key list back the same ordering
entries, yielding identical job-id listings. -/
theorem filterMap_lookup_map_id (ds : List String) (m m' : List (String × Job))
    (hk : m.map Prod.fst = m'.map Prod.fst)
    (w : ∀ p ∈ m, (p : String × Job).2.id = p.1)
    (w' : ∀ p ∈ m', (p : String × Job).2.id = p.1) :
    (ds.filterMap (lookupJob m)).map Job.id =
      (ds.filterMap (lookupJob m')).map Job.id := by
  induction ds with
  | nil => rfl
  | cons i rest ih =>
      cases hm : lookupJob m i with
      | none =>
          have hnot : i ∉ m.map Prod.fst := by
            intro hmem
            have := lookupJob_isSome_of_mem_keys m i hmem
            rw [hm] at this
            simp at this
          cases hm' : lookupJob m' i with
          | none => simp [List.filterMap_cons, hm, hm', ih]
          | some v =>
              exact absurd (hk ▸ mem_keys_of_lookupJob m' i v hm') hnot
      | some v =>
          have hvi : v.id = i := w _ (lookupJob_mem m i v hm)
          have hmem : i ∈ m'.map Prod.fst := hk ▸ mem_keys_of_lookupJob m i v hm
          cases hm' : lookupJob m' i with
          | none =>
              have := lookupJob_isSome_of_mem_keys m' i hmem
              rw [hm'] at this
              simp at this
          | some v' =>
              have hvi' : v'.id = i := w' _ (lookupJob_mem m' i v' hm')
              simp [List.filterMap_cons, hm, hm', hvi, hvi', ih]

@[simp]
theorem workT_true (st : QState) :
    Worker.workT st true = (st.queue.jobs).foldl workStep (st, []) := by
  simp [Worker.workT]

/-- Every drain outcome is a terminal status. -/
theorem drainStatus_terminal (j : Job) : j.drainStatus.isTerminal = true := by
  cases hf : j.func <;> simp [Job.drainStatus, JobStatus.isTerminal, hf]

@[simp]
theorem enqueue_deque (st : QState) (jobId : String) (f : Target) (a : List Int)
    (kw : List (String × Int)) (dep : Bool) :
    (st.enqueue jobId f a kw dep).1.queue.deque = st.queue.deque ++ [jobId] := by
  cases dep <;> simp [QState.enqueue]

/-- Enqueuing an id absent from the durable ordering appends the new job to
the FIFO listing. -/
theorem enqueue_jobs (st : QState) (jobId : String) (f : Target) (a : List Int)
    (kw : List (String × Int)) (dep : Bool) (h : jobId ∉ st.queue.deque) :
    (st.enqueue jobId f a kw dep).1.queue.jobs
      = st.queue.jobs ++ [(st.enqueue jobId f a kw dep).2] := by
  have hid : (st.enqueue jobId f a kw dep).2.id = jobId := by
    cases dep <;> simp [QState.enqueue]
  have hcong : ∀ i ∈ st.queue.deque,
      lookupJob (st.enqueue jobId f a kw dep).1.queue.jobsMap i
        = lookupJob st.queue.jobsMap i := by
    intro i hi
    have hne : i ≠ jobId := fun he => h (he ▸ hi)
    cases dep <;>
      simp [QState.enqueue, lookupJob_setJob_ne _ _ _ _ hne]
  rw [Queue.jobs, enqueue_deque, List.filterMap_append]
  congr 1
  · exact List.filterMap_congr hcong
  · rw [← hid]
    cases dep <;> simp [QState.enqueue, Queue.jobs]

/-- The FIFO listing reports exactly the ordering entries that still have a
backing job; entries without one are skipped. -/
theorem jobs_length_countP (q : Queue) :
    q.jobs.length = q.deque.countP (fun i => (lookupJob q.jobsMap i).isSome) := by
  rw [Queue.jobs]
  induction q.deque with
  | nil => rfl
  | cons i rest ih =>
      cases hm : lookupJob q.jobsMap i <;>
        simp [List.filterMap_cons, List.countP_cons, hm, ih]

/-- In a well-formed state, every listed job's id is a key of the mapping. -/
theorem mem_jobs_id_mem_keys (st : QState) (hwf : st.WF) (k : Job)
    (hk : k ∈ st.queue.jobs) : k.id ∈ st.queue.jobsMap.map Prod.fst := by
  rw [Queue.jobs] at hk
  obtain ⟨i, _, hlk⟩ := List.mem_filterMap.mp hk
  have : k.id = i := hwf _ (lookupJob_mem _ _ _ hlk)
  exact this ▸ mem_keys_of_lookupJob _ _ _ hlk

/-- When no snapshot target enqueues, the drain fold leaves the durable
ordering untouched. -/
theorem foldl_workStep_deque (l : List Job) (acc : QState × List Event)
    (h : ∀ k ∈ l, k.func.enqIds = []) :
    (l.foldl workStep acc).1.queue.deque = acc.1.queue.deque := by
  induction l generalizing acc with
  | nil => rfl
  | cons j rest ih =>
      simp only [List.foldl_cons, workStep_def]
      rw [ih _ (fun k hk => h k (List.mem_cons_of_mem _ hk)), workBody_deque,
        h j (List.mem_cons_self _ _), List.append_nil]

/-- C1: refuted at the concrete three-job scenario — job2 does end FAILED,
yet the drained queue's Failed Registry does not contain job2's id, because
`Worker.work` performs no registry update at all. -/
theorem c1_counterexample :
    ((Worker.work stC1base true).queue.fetch_job "j2").map Job.status
      = some .failed ∧
    "j2" ∉ (Worker.work stC1base true).failedReg := by
  constructor
  · rfl
  · decide

/-- C1 (amended): for the queue holding exactly three jobs whose targets
return 1, raise, and return 3, after `work(burst=true)` the first job is
FINISHED with result 1, the second FAILED with a non-empty error text, the
third FINISHED with result 3, and the queue's Started Registry is empty —
but its Failed Registry does not contain the second job's id, since the
drain never touches any registry. -/
theorem c1_drain_scenario :
    ((Worker.work stC1base true).queue.fetch_job "j1").map Job.status = some .finished ∧
    ((Worker.work stC1base true).queue.fetch_job "j1").map Job.result = some (some 1) ∧
    ((Worker.work stC1base true).queue.fetch_job "j2").map Job.status = some .failed ∧
    (∃ m, ((Worker.work stC1base true).queue.fetch_job "j2").map Job.excInfo
        = some (some m) ∧ m ≠ "") ∧
    ((Worker.work stC1base true).queue.fetch_job "j3").map Job.status = some .finished ∧
    ((Worker.work stC1base true).queue.fetch_job "j3").map Job.result = some (some 3) ∧
    (Worker.work stC1base true).startedReg = [] ∧
    "j2" ∉ (Worker.work stC1base true).failedReg := by
  refine ⟨rfl, rfl, rfl, ⟨"boom", rfl, by decide⟩, rfl, rfl, rfl, by decide⟩

/-- C2: refuted at a one-job scenario — the drain trace invokes the job's
target, yet contains no transition to STARTED and no registry operation,
the job's `started_at` stays unset, and the Started Registry stays empty. -/
theorem c2_counterexample :
    Event.execJob "a" ∈ (Worker.workT stC2base true).2 ∧
    (∀ e ∈ (Worker.workT stC2base true).2,
      e.isStartedSet = false ∧ e.isRegOp = false) ∧
    ((Worker.work stC2base true).queue.fetch_job "a").map Job.startedAt
      = some none ∧
    (Worker.work stC2base true).startedReg = [] := by
  refine ⟨by decide, by decide, rfl, rfl⟩

/-- C2 (amended): a `work(burst=true)` drain pass performs no STARTED
transition and no registry operation whatsoever: its trace contains neither,
and all six registries are left exactly as they were.  (The paired
STARTED/Started-Registry bookkeeping lives in `prepare_job_execution`, which
`work` never calls.) -/
theorem c2_work_no_started_no_registry (st : QState) :
    (∀ e ∈ (Worker.workT st true).2, e.isRegOp = false ∧ e.isStartedSet = false) ∧
    (Worker.work st true).startedReg = st.startedReg ∧
    (Worker.work st true).failedReg = st.failedReg ∧
    (Worker.work st true).finishedReg = st.finishedReg ∧
    (Worker.work st true).deferredReg = st.deferredReg ∧
    (Worker.work st true).scheduledReg = st.scheduledReg ∧
    (Worker.work st true).canceledReg = st.canceledReg := by
  obtain ⟨h1, h2, h3, h4, h5, h6, _⟩ :=
    foldl_workStep_frame (st.queue.jobs) (st, [])
  refine ⟨?_, h1, h2, h3, h4, h5, h6⟩
  intro e he
  rw [workT_true, foldl_workStep_events, List.nil_append] at he
  exact joinedEvents_pred _ e he

/-- C3: refuted at a concrete `enqueue_at` call — the returned job's status
is QUEUED, not SCHEDULED, though its id is in the Scheduled Registry. -/
theorem c3_counterexample :
    enqAtC3.2.status = .queued ∧
    enqAtC3.2.status ≠ .scheduled ∧
    "s1" ∈ enqAtC3.1.scheduledReg := by
  refine ⟨rfl, by decide, by decide⟩

/-- C3 (amended): `enqueue` assigns DEFERRED exactly when `depends_on` is
supplied and QUEUED otherwise, and never touches the Scheduled Registry;
`enqueue_at` keeps the status `enqueue` assigned (it never assigns
SCHEDULED), records the schedule time, and adds the job's id to the
Scheduled Registry. -/
theorem c3_enqueue_initial_status (st : QState) (jobId : String) (f : Target)
    (a : List Int) (kw : List (String × Int)) (dep : Bool) (t : Nat) :
    ((st.enqueue jobId f a kw dep).2.status
      = (if dep then JobStatus.deferred else JobStatus.queued)) ∧
    ((st.enqueue jobId f a kw dep).1.scheduledReg = st.scheduledReg) ∧
    ((st.enqueue_at t jobId f a kw dep).2.status
      = (if dep then JobStatus.deferred else JobStatus.queued)) ∧
    ((st.enqueue_at t jobId f a kw dep).2.scheduledAt = some t) ∧
    (jobId ∈ (st.enqueue_at t jobId f a kw dep).1.scheduledReg) := by
  cases dep <;>
    simp [QState.enqueue, QState.enqueue_at, mem_regAdd_self]

/-- C4: refuted at a FINISHED job — `set_status` applies a QUEUED
transition to it instead of rejecting or ignoring it, changing the recorded
status. -/
theorem c4_counterexample :
    jobC4.status.isTerminal = true ∧
    (jobC4.set_status .queued 7).status = .queued ∧
    (jobC4.set_status .queued 7).status ≠ jobC4.status := by
  refine ⟨rfl, rfl, by decide⟩

/-- C4 (amended): `set_status` is unguarded — even on a job whose status is
terminal it overwrites the status with the requested one (stamping the
corresponding timestamp); result and error text are left unchanged.  No
transition is ever rejected or ignored. -/
theorem c4_set_status_unguarded (j : Job) (s : JobStatus) (n : Nat)
    (h : j.status.isTerminal = true) :
    (j.set_status s n).status = s ∧
    (j.set_status s n).result = j.result ∧
    (j.set_status s n).excInfo = j.excInfo := by
  have _ := h
  exact ⟨set_status_status j s n, (set_status_result_excInfo j s n).1,
    (set_status_result_excInfo j s n).2⟩

/-- C4 witness: the amended theorem applied to a concrete FINISHED job. -/
theorem c4_witness :
    (jobC4.set_status .queued 7).status = .queued ∧
    (jobC4.set_status .queued 7).result = jobC4.result ∧
    (jobC4.set_status .queued 7).excInfo = jobC4.excInfo :=
  c4_set_status_unguarded jobC4 .queued 7 (by decide)

/-- C5: refuted at a one-job scenario with two registered workers — the
job succeeds (M = 1), yet the façade reports `finished_jobs = 0` and a
`workers` field of 1, not the process-wide count of 2. -/
theorem c5_counterexample :
    ((Worker.work stC5base true).queue.fetch_job "k1").map Job.status
      = some .finished ∧
    (get_queue_statistics (Worker.work stC5base true) 0).finished_jobs = 0 ∧
    (get_queue_statistics (Worker.work stC5base true) 0).finished_jobs ≠ 1 ∧
    (get_statistics (Worker.work stC5base true) 0 2).workers ≠ 2 := by
  refine ⟨rfl, by decide, by decide, by decide⟩

/-- C5 (amended): after a drain, `finished_jobs` and `failed_jobs` report
the Finished and Failed Registry cardinalities, which `work` leaves exactly
as they were before the pass (hence 0 from a fresh state, regardless of how
many targets succeeded or failed), and the façade's `workers` field is the
constant 1 regardless of the process-wide worker count. -/
theorem c5_statistics_report_registries (st : QState) (qi nw : Nat) :
    (get_queue_statistics (Worker.work st true) qi).finished_jobs
      = st.finishedReg.length ∧
    (get_queue_statistics (Worker.work st true) qi).failed_jobs
      = st.failedReg.length ∧
    (get_statistics (Worker.work st true) qi nw).workers = 1 := by
  obtain ⟨_, h2, h3, _⟩ := foldl_workStep_frame (st.queue.jobs) (st, [])
  refine ⟨?_, ?_, rfl⟩
  · simp [get_queue_statistics, Worker.work, h3]
  · simp [get_queue_statistics, Worker.work, h2]

/-- C6: refuted at a one-job scenario — the job with a non-callable target
is QUEUED before the drain but FINISHED after it: the worker does skip the
invocation, yet still mutates the status. -/
theorem c6_counterexample :
    (stC6base.queue.fetch_job "n1").map Job.status = some .queued ∧
    ((Worker.work stC6base true).queue.fetch_job "n1").map Job.status
      = some .finished := by
  exact ⟨rfl, rfl⟩

/-- C6 (amended): a job whose stored target is not callable is never
invoked during the drain and its result and error text are left unchanged —
but the job is nevertheless transitioned to FINISHED, not left untouched. -/
theorem c6_noncallable_finished (st : QState) (j : Job)
    (hmem : j ∈ st.queue.jobs) (hnd : (st.queue.jobs.map Job.id).Nodup)
    (hfresh : ∀ k ∈ st.queue.jobs, ∀ i ∈ k.func.enqIds, i ∉ st.queue.jobs.map Job.id)
    (hf : j.func = .notCallable) :
    execCount (Worker.workT st true).2 j.id = 0 ∧
    ((Worker.work st true).queue.fetch_job j.id).map Job.status = some .finished ∧
    ((Worker.work st true).queue.fetch_job j.id).map Job.result = some j.result ∧
    ((Worker.work st true).queue.fetch_job j.id).map Job.excInfo = some j.excInfo := by
  have hfetch := foldl_workStep_fetch st.queue.jobs (st, []) j hmem hnd hfresh
  refine ⟨?_, ?_, ?_, ?_⟩
  · rw [workT_true, foldl_workStep_events, List.nil_append]
    refine execCount_joined_zero _ _ ?_
    intro k hk he
    have hkj : k = j := List.inj_on_of_nodup_map hnd hk hmem he
    rw [hkj, hf]
    rfl
  · simp only [Worker.work, workT_true]
    simpa [Job.drainStatus, hf] using hfetch.1
  · simp only [Worker.work, workT_true]
    simpa [Job.drainResult, hf] using hfetch.2.1
  · simp only [Worker.work, workT_true]
    simpa [Job.drainExc, hf] using hfetch.2.2.1

/-- C6 witness: the amended theorem applied to the concrete one-job
scenario with a non-callable target. -/
theorem c6_witness :
    execCount (Worker.workT stC6base true).2 jobC6.id = 0 ∧
    ((Worker.work stC6base true).queue.fetch_job jobC6.id).map Job.status
      = some .finished ∧
    ((Worker.work stC6base true).queue.fetch_job jobC6.id).map Job.result
      = some jobC6.result ∧
    ((Worker.work stC6base true).queue.fetch_job jobC6.id).map Job.excInfo
      = some jobC6.excInfo :=
  c6_noncallable_finished stC6base jobC6 (by decide) (by decide) (by decide)
    (by decide)

/-- C7: a target that raises has its message stored as the job's error text
and the job transitioned to FAILED; the exception is contained (`work` is a
total function of the state), and every snapshotted job of the same pass
still reaches its terminal drain outcome.  Holds for any state whose
snapshot has distinct ids and no id-colliding mid-drain enqueues. -/
theorem c7_exception_contained (st : QState) (j : Job) (msg : String)
    (hmem : j ∈ st.queue.jobs) (hnd : (st.queue.jobs.map Job.id).Nodup)
    (hfresh : ∀ k ∈ st.queue.jobs, ∀ i ∈ k.func.enqIds, i ∉ st.queue.jobs.map Job.id)
    (hf : j.func = .raiseExc msg) :
    ((Worker.work st true).queue.fetch_job j.id).map Job.status = some .failed ∧
    ((Worker.work st true).queue.fetch_job j.id).map Job.excInfo = some (some msg) ∧
    (∀ k ∈ st.queue.jobs,
      ((Worker.work st true).queue.fetch_job k.id).map Job.status
        = some k.drainStatus ∧
      k.drainStatus.isTerminal = true) := by
  have hfetch := foldl_workStep_fetch st.queue.jobs (st, []) j hmem hnd hfresh
  refine ⟨?_, ?_, ?_⟩
  · simp only [Worker.work, workT_true]
    simpa [Job.drainStatus, hf] using hfetch.1
  · simp only [Worker.work, workT_true]
    simpa [Job.drainExc, hf] using hfetch.2.2.1
  · intro k hk
    have h := (foldl_workStep_fetch st.queue.jobs (st, []) k hk hnd hfresh).1
    constructor
    · simp only [Worker.work, workT_true]
      exact h
    · exact drainStatus_terminal k

/-- C7 witness: the theorem applied to the concrete scenario of a raising
job followed by a succeeding one. -/
theorem c7_witness :
    ((Worker.work stC7base true).queue.fetch_job jobC7.id).map Job.status
      = some .failed ∧
    ((Worker.work stC7base true).queue.fetch_job jobC7.id).map Job.excInfo
      = some (some "bad") ∧
    (∀ k ∈ stC7base.queue.jobs,
      ((Worker.work stC7base true).queue.fetch_job k.id).map Job.status
        = some k.drainStatus ∧
      k.drainStatus.isTerminal = true) :=
  c7_exception_contained stC7base jobC7 "bad" (by decide) (by decide)
    (by decide) (by decide)

/-- C8: snapshot isolation — a job enqueued to the same queue from inside a
running target is never invoked within the same `work(burst=true)` call and
is stored freshly QUEUED with no result or error, and with distinct
snapshot ids no snapshot job's target is invoked more than once in the
pass. -/
theorem c8_snapshot_isolation (st : QState) (j : Job) (d : String) (dt : Target)
    (da : List Int) (v : Int)
    (hmem : j ∈ st.queue.jobs) (hnd : (st.queue.jobs.map Job.id).Nodup)
    (hf : j.func = .enqThenRet d dt da v)
    (hd1 : d ∉ st.queue.jobs.map Job.id)
    (hd2 : ∀ k ∈ st.queue.jobs, d ∈ k.func.enqIds → k = j) :
    execCount (Worker.workT st true).2 d = 0 ∧
    ((Worker.work st true).queue.fetch_job d).map Job.status = some .queued ∧
    ((Worker.work st true).queue.fetch_job d).map Job.result = some none ∧
    ((Worker.work st true).queue.fetch_job d).map Job.excInfo = some none ∧
    ((Worker.work st true).queue.fetch_job d).map Job.func = some dt ∧
    (∀ k ∈ st.queue.jobs, execCount (Worker.workT st true).2 k.id ≤ 1) := by
  have henq := foldl_workStep_enqueued st.queue.jobs (st, []) j d dt da v
    hmem hnd hf hd1 hd2
  refine ⟨?_, ?_, ?_, ?_, ?_, ?_⟩
  · rw [workT_true, foldl_workStep_events, List.nil_append]
    refine execCount_joined_zero _ _ ?_
    intro k hk he
    exact absurd (he ▸ List.mem_map_of_mem Job.id hk) hd1
  · simp only [Worker.work, workT_true]
    exact henq.1
  · simp only [Worker.work, workT_true]
    exact henq.2.1
  · simp only [Worker.work, workT_true]
    exact henq.2.2.1
  · simp only [Worker.work, workT_true]
    exact henq.2.2.2.1
  · intro k hk
    rw [workT_true, foldl_workStep_events, List.nil_append]
    exact execCount_joined_le_one _ hnd k hk

/-- C8 witness: the theorem applied to the concrete scenario whose first
job enqueues a new job mid-drain. -/
theorem c8_witness :
    execCount (Worker.workT stC8base true).2 "d8" = 0 ∧
    ((Worker.work stC8base true).queue.fetch_job "d8").map Job.status
      = some .queued ∧
    ((Worker.work stC8base true).queue.fetch_job "d8").map Job.result
      = some none ∧
    ((Worker.work stC8base true).queue.fetch_job "d8").map Job.excInfo
      = some none ∧
    ((Worker.work stC8base true).queue.fetch_job "d8").map Job.func
      = some (.ret 9) ∧
    (∀ k ∈ stC8base.queue.jobs, execCount (Worker.workT stC8base true).2 k.id ≤ 1) :=
  c8_snapshot_isolation stC8base jobC8 "d8" (.ret 9) [] 4 (by decide)
    (by decide) (by decide) (by decide) (by decide)

/-- C9: FIFO order — three jobs enqueued in sequence with fresh ids extend
the queue's listing in exactly that order — and the listing reports exactly
the ordering entries that still have a backing job, skipping the rest. -/
theorem c9_fifo_and_skip (st : QState) (ia ib ic : String) (fa fb fc : Target)
    (ha : ia ∉ st.queue.deque) (hb : ib ∉ st.queue.deque) (hc : ic ∉ st.queue.deque)
    (hba : ib ≠ ia) (hca : ic ≠ ia) (hcb : ic ≠ ib) :
    ((((st.enqueue ia fa [] [] false).1.enqueue ib fb [] [] false).1.enqueue
        ic fc [] [] false).1.queue.jobs
      = st.queue.jobs
        ++ [(st.enqueue ia fa [] [] false).2,
            ((st.enqueue ia fa [] [] false).1.enqueue ib fb [] [] false).2,
            (((st.enqueue ia fa [] [] false).1.enqueue ib fb [] [] false).1.enqueue
              ic fc [] [] false).2]) ∧
    (∀ q : Queue, q.jobs.length
      = q.deque.countP (fun i => (lookupJob q.jobsMap i).isSome)) := by
  constructor
  · have h1 := enqueue_jobs st ia fa [] [] false ha
    have hb1 : ib ∉ (st.enqueue ia fa [] [] false).1.queue.deque := by
      rw [enqueue_deque]
      simp [hb, hba]
    have h2 := enqueue_jobs _ ib fb [] [] false hb1
    have hc2 : ic ∉ ((st.enqueue ia fa [] [] false).1.enqueue ib fb [] [] false).1.queue.deque := by
      rw [enqueue_deque, enqueue_deque]
      simp [hc, hca, hcb]
    have h3 := enqueue_jobs _ ic fc [] [] false hc2
    rw [h3, h2, h1]
    simp
  · exact jobs_length_countP

/-- C9 witness: the theorem applied to three concrete enqueues on a fresh
queue. -/
theorem c9_witness :
    (((((emptyState "q9").enqueue "A" (.ret 1) [] [] false).1.enqueue
        "B" (.ret 2) [] [] false).1.enqueue "C" (.ret 3) [] [] false).1.queue.jobs
      = (emptyState "q9").queue.jobs
        ++ [((emptyState "q9").enqueue "A" (.ret 1) [] [] false).2,
            (((emptyState "q9").enqueue "A" (.ret 1) [] [] false).1.enqueue
              "B" (.ret 2) [] [] false).2,
            ((((emptyState "q9").enqueue "A" (.ret 1) [] [] false).1.enqueue
              "B" (.ret 2) [] [] false).1.enqueue "C" (.ret 3) [] [] false).2]) ∧
    (∀ q : Queue, q.jobs.length
      = q.deque.countP (fun i => (lookupJob q.jobsMap i).isSome)) :=
  c9_fifo_and_skip (emptyState "q9") "A" "B" "C" (.ret 1) (.ret 2) (.ret 3)
    (by decide) (by decide) (by decide) (by decide) (by decide) (by decide)

/-- C10: a drain pass removes nothing — the durable ordering, the mapping's
keys and the queue's count are unchanged, the listing still reports the same
job ids in the same order, and every enqueued job is still fetchable with
its id, origin, args and kwargs intact.  Scoped to snapshots whose targets
do not themselves enqueue (mid-drain enqueues would grow, never shrink, the
queue). -/
theorem c10_work_frame (st : QState)
    (hwf : st.WF) (hnd : (st.queue.jobs.map Job.id).Nodup)
    (hne : ∀ k ∈ st.queue.jobs, k.func.enqIds = []) :
    (Worker.work st true).queue.deque = st.queue.deque ∧
    (Worker.work st true).queue.jobsMap.map Prod.fst
      = st.queue.jobsMap.map Prod.fst ∧
    (Worker.work st true).queue.count = st.queue.count ∧
    (Worker.work st true).queue.jobs.map Job.id = st.queue.jobs.map Job.id ∧
    (∀ k ∈ st.queue.jobs,
      ((Worker.work st true).queue.fetch_job k.id).map Job.id = some k.id ∧
      ((Worker.work st true).queue.fetch_job k.id).map Job.origin = some k.origin ∧
      ((Worker.work st true).queue.fetch_job k.id).map Job.args = some k.args ∧
      ((Worker.work st true).queue.fetch_job k.id).map Job.kwargs = some k.kwargs) := by
  have hkeys := foldl_workStep_keys st.queue.jobs (st, [])
    (fun k hk => ⟨mem_jobs_id_mem_keys st hwf k hk, hne k hk⟩)
  have hdeq := foldl_workStep_deque st.queue.jobs (st, []) hne
  have hwf2 := foldl_workStep_wf st.queue.jobs (st, []) hwf
  have hfresh : ∀ k ∈ st.queue.jobs, ∀ i ∈ k.func.enqIds,
      i ∉ st.queue.jobs.map Job.id := by
    intro k hk i hi
    rw [hne k hk] at hi
    exact absurd hi (List.not_mem_nil i)
  refine ⟨?_, ?_, ?_, ?_, ?_⟩
  · simp only [Worker.work, workT_true]
    exact hdeq
  · simp only [Worker.work, workT_true]
    exact hkeys
  · simp only [Worker.work, workT_true, Queue.count]
    have h := congrArg List.length hkeys
    simpa using h
  · have hdeq2 : (st.queue.jobs.foldl workStep (st, [])).1.queue.deque
        = st.queue.deque := hdeq
    have heq := filterMap_lookup_map_id st.queue.deque
      ((st.queue.jobs.foldl workStep (st, [])).1.queue.jobsMap)
      st.queue.jobsMap hkeys hwf2 hwf
    simp only [Worker.work, workT_true]
    calc ((st.queue.jobs.foldl workStep (st, [])).1.queue.jobs).map Job.id
        = ((st.queue.jobs.foldl workStep (st, [])).1.queue.deque.filterMap
            (lookupJob (st.queue.jobs.foldl workStep (st, [])).1.queue.jobsMap)).map
              Job.id := rfl
      _ = (st.queue.deque.filterMap
            (lookupJob (st.queue.jobs.foldl workStep (st, [])).1.queue.jobsMap)).map
              Job.id := by rw [hdeq2]
      _ = (st.queue.deque.filterMap (lookupJob st.queue.jobsMap)).map Job.id := heq
      _ = st.queue.jobs.map Job.id := rfl
  · intro k hk
    obtain ⟨_, _, _, h4, h5, h6, h7, _⟩ :=
      foldl_workStep_fetch st.queue.jobs (st, []) k hk hnd hfresh
    refine ⟨?_, ?_, ?_, ?_⟩ <;> simp only [Worker.work, workT_true]
    · exact h4
    · exact h5
    · exact h6
    · exact h7

/-- C10 witness: the theorem applied to the concrete two-job scenario. -/
theorem c10_witness :
    (Worker.work stC10base true).queue.deque = stC10base.queue.deque ∧
    (Worker.work stC10base true).queue.jobsMap.map Prod.fst
      = stC10base.queue.jobsMap.map Prod.fst ∧
    (Worker.work stC10base true).queue.count = stC10base.queue.count ∧
    (Worker.work stC10base true).queue.jobs.map Job.id
      = stC10base.queue.jobs.map Job.id ∧
    (∀ k ∈ stC10base.queue.jobs,
      ((Worker.work stC10base true).queue.fetch_job k.id).map Job.id = some k.id ∧
      ((Worker.work stC10base true).queue.fetch_job k.id).map Job.origin
        = some k.origin ∧
      ((Worker.work stC10base true).queue.fetch_job k.id).map Job.args
        = some k.args ∧
      ((Worker.work stC10base true).queue.fetch_job k.id).map Job.kwargs
        = some k.kwargs) :=
  c10_work_frame stC10base (by unfold QState.WF; decide) (by decide) (by decide)

end Diskcache
